import Mathlib

/-!
Verification of the PrisonWarden moderation bot's in-process logic
(`src/cogs/appeals.py`), as a shallow embedding in Lean 4.

Conventions of the embedding:
* Timestamps are integers counting seconds (`datetime.datetime` values in the
  source; `utcnow()` becomes an explicit `now : Int` argument).
* A Python `timedelta.days` is floor division of the total seconds by 86400,
  which on `Int` is `Int.fdiv`.
* Text is modelled at the UTF-8 byte level as `List Nat` (each entry `< 256`);
  `urllib.parse.quote_plus` / `unquote_plus` are embedded byte for byte from
  CPython's semantics.
* Calls to the external Discord client that can raise are modelled as
  `Except`-valued functions supplied by the caller.
-/

/-- Embeds the fields of `discord.Invite` that `cogs/appeals.py` reads:
`uses`, `max_uses`, and `created_at` (seconds). -/
structure Invite where
  uses : Nat
  max_uses : Nat
  created_at : Int
deriving DecidableEq

/-- Embeds `Appeals._is_stale_invite` (src/cogs/appeals.py:67-69):
`invite.uses == 0 and invite.max_uses == 1 and
(datetime.datetime.utcnow() - invite.created_at).days >= 7`,
with `utcnow()` passed explicitly as `now`. -/
def is_stale_invite (now : Int) (inv : Invite) : Bool :=
  inv.uses == 0 && inv.max_uses == 1 && decide (7 ≤ (now - inv.created_at).fdiv 86400)

/-- The sort key used throughout the cog: `key=lambda i: i.created_at`. -/
def invLE (a b : Invite) : Prop := a.created_at ≤ b.created_at

instance : DecidableRel invLE := fun a b => Int.decLe a.created_at b.created_at

instance : IsTotal Invite invLE := ⟨fun a b => Int.le_total a.created_at b.created_at⟩

instance : IsTrans Invite invLE := ⟨fun _ _ _ h1 h2 => Int.le_trans h1 h2⟩

/-- Embeds `Appeals._fetch_all_stale_single_use_invites`
(src/cogs/appeals.py:394-402): sorts the guild's invites by `created_at`, then
keeps those satisfying `_is_stale_invite`, in order. The invite list fetched
from `guild.invites()` is the `invites` argument. Python's `sorted` is a
stable comparison sort; `List.insertionSort` with a non-strict key order is
likewise stable. -/
def fetch_all_stale_single_use_invites (now : Int) (invites : List Invite) : List Invite :=
  let sortedInvites := invites.insertionSort invLE
  sortedInvites.filter (is_stale_invite now)

/-- Embeds `Appeals._fetch_stale_one_time_invites` (src/cogs/appeals.py:331-356):
`sorted([invite for invite in invites if self._is_stale_invite(invite)],
key=lambda i: i.created_at)`. -/
def fetch_stale_one_time_invites (now : Int) (invites : List Invite) : List Invite :=
  (invites.filter (is_stale_invite now)).insertionSort invLE

theorem is_stale_invite_iff (now : Int) (inv : Invite) :
    is_stale_invite now inv = true ↔
      inv.uses = 0 ∧ inv.max_uses = 1 ∧ 7 * 86400 ≤ now - inv.created_at := by
  have hdiv : (now - inv.created_at).fdiv 86400 = (now - inv.created_at) / 86400 :=
    Int.fdiv_eq_ediv _ (by norm_num)
  have hle : 7 ≤ (now - inv.created_at) / 86400 ↔ 7 * 86400 ≤ now - inv.created_at :=
    Int.le_ediv_iff_mul_le (by norm_num)
  simp [is_stale_invite, hdiv, hle, and_assoc]

/-- C1: the stale-invite selection returns exactly the invites with use count
0, max-uses 1, and age at least the 7-day threshold; the output is sorted
ascending by creation timestamp; empty input gives empty output; and on the
three scenario invites aged 10 days only the first is selected. -/
theorem stale_selection_correct :
    (∀ (now : Int) (inv : Invite),
        is_stale_invite now inv = true ↔
          inv.uses = 0 ∧ inv.max_uses = 1 ∧ 7 * 86400 ≤ now - inv.created_at) ∧
    (∀ (now : Int) (invites : List Invite),
        (fetch_all_stale_single_use_invites now invites).Perm
          (invites.filter (is_stale_invite now))) ∧
    (∀ (now : Int) (invites : List Invite),
        List.Sorted invLE (fetch_all_stale_single_use_invites now invites)) ∧
    (∀ now : Int, fetch_all_stale_single_use_invites now [] = []) ∧
    fetch_all_stale_single_use_invites (10 * 86400)
        [⟨0, 1, 0⟩, ⟨1, 1, 0⟩, ⟨0, 5, 0⟩] = [⟨0, 1, 0⟩] := by
  refine ⟨is_stale_invite_iff, ?_, ?_, ?_, ?_⟩
  · intro now invites
    exact (List.perm_insertionSort invLE invites).filter (is_stale_invite now)
  · intro now invites
    exact (List.sorted_insertionSort invLE invites).filter (is_stale_invite now)
  · intro now
    rfl
  · decide

/-- C1 witness: the characterisation of the predicate, instantiated at a
concrete invite aged ten days. -/
theorem stale_selection_correct_witness :
    is_stale_invite (10 * 86400) ⟨0, 1, 0⟩ = true :=
  (stale_selection_correct.1 (10 * 86400) ⟨0, 1, 0⟩).mpr (by norm_num)

/-- Embeds the fields of `discord.Member` the appeals command reads:
`id` (via `user.id`) and `joined_at` (seconds). -/
structure AMember where
  id : Nat
  joined_at : Int
deriving DecidableEq

/-- The sort key of `appeals_command`: `key=lambda m: m[0].joined_at`. -/
def amLE (a b : AMember) : Prop := a.joined_at ≤ b.joined_at

instance : DecidableRel amLE := fun a b => Int.decLe a.joined_at b.joined_at

instance : IsTotal AMember amLE := ⟨fun a b => Int.le_total a.joined_at b.joined_at⟩

instance : IsTrans AMember amLE := ⟨fun _ _ _ h1 h2 => Int.le_trans h1 h2⟩

/-- Embeds the `original` accumulation loop of `Appeals.appeals_command`
(src/cogs/appeals.py:767-771): for each configured role id,
`role = ctx.guild.get_role(role_id)`, and if the role exists its members'
ids are appended; a deleted role contributes nothing. -/
def appeals_collect_ids (getRole : Nat → Option (List AMember)) : List Nat → List Nat
  | [] => []
  | rid :: rs =>
    (match getRole rid with
     | some ms => ms.map AMember.id
     | none => []) ++ appeals_collect_ids getRole rs

/-- Embeds the duplicate-removal loop of `Appeals.appeals_command`
(src/cogs/appeals.py:773-777): ids are appended to `user_ids` only when not
already present, so the first occurrence wins and order is preserved. -/
def dedup_first_aux (acc : List Nat) : List Nat → List Nat
  | [] => acc
  | x :: xs => if x ∈ acc then dedup_first_aux acc xs else dedup_first_aux (acc ++ [x]) xs

/-- The duplicate-removal loop started from the empty accumulator. -/
def dedup_first (l : List Nat) : List Nat := dedup_first_aux [] l

/-- Embeds the roster construction of `Appeals.appeals_command`
(src/cogs/appeals.py:762-785): collect member ids across the configured
appeal roles, remove duplicates keeping first occurrences, retrieve each
member (`bot.retrieve_member`, modelled by `retrieve`), and sort ascending by
`joined_at`. -/
def appeals_roster (getRole : Nat → Option (List AMember)) (retrieve : Nat → AMember)
    (roleIds : List Nat) : List AMember :=
  let original := appeals_collect_ids getRole roleIds
  let userIds := dedup_first original
  let members := userIds.map retrieve
  members.insertionSort amLE

theorem dedup_first_aux_nodup (l : List Nat) :
    ∀ acc : List Nat, acc.Nodup → (dedup_first_aux acc l).Nodup := by
  induction l with
  | nil => intro acc h; exact h
  | cons x xs ih =>
    intro acc h
    unfold dedup_first_aux
    by_cases hx : x ∈ acc
    · rw [if_pos hx]
      exact ih acc h
    · rw [if_neg hx]
      refine ih (acc ++ [x]) (h.append (List.nodup_singleton x) ?_)
      intro a ha hb
      exact hx ((List.mem_singleton.mp hb) ▸ ha)

theorem dedup_first_nodup (l : List Nat) : (dedup_first l).Nodup :=
  dedup_first_aux_nodup l [] List.nodup_nil

/-- Role membership of the C2 scenario: role A (id 100) has members u1, u2;
role B (id 200) has members u2, u3; join times u1 < u3 < u2. -/
def scGetRole : Nat → Option (List AMember) := fun r =>
  if r = 100 then some [⟨1, 10⟩, ⟨2, 30⟩]
  else if r = 200 then some [⟨2, 30⟩, ⟨3, 20⟩]
  else none

/-- Member retrieval of the C2 scenario. -/
def scRetrieve : Nat → AMember := fun i =>
  if i = 1 then ⟨1, 10⟩ else if i = 2 then ⟨2, 30⟩ else if i = 3 then ⟨3, 20⟩ else ⟨0, 0⟩

/-- C2: the roster built by the appeals command contains each distinct member
identity at most once (retrieval by id returns the member with that id) and
is sorted ascending by join timestamp; on the scenario roles
A = [u1, u2], B = [u2, u3] with join times u1 < u3 < u2 the roster is
[u1, u3, u2] of length 3. -/
theorem roster_nodup_sorted :
    (∀ (getRole : Nat → Option (List AMember)) (retrieve : Nat → AMember) (roleIds : List Nat),
        (∀ i, (retrieve i).id = i) →
        ((appeals_roster getRole retrieve roleIds).map AMember.id).Nodup ∧
        List.Sorted amLE (appeals_roster getRole retrieve roleIds)) ∧
    appeals_roster scGetRole scRetrieve [100, 200] = [⟨1, 10⟩, ⟨3, 20⟩, ⟨2, 30⟩] ∧
    (appeals_roster scGetRole scRetrieve [100, 200]).length = 3 := by
  refine ⟨?_, by decide, by decide⟩
  intro getRole retrieve roleIds hid
  constructor
  · have hperm : (appeals_roster getRole retrieve roleIds).Perm
        ((dedup_first (appeals_collect_ids getRole roleIds)).map retrieve) :=
      List.perm_insertionSort amLE _
    have hmap := hperm.map AMember.id
    have hids : ((dedup_first (appeals_collect_ids getRole roleIds)).map retrieve).map
        AMember.id = dedup_first (appeals_collect_ids getRole roleIds) := by
      rw [List.map_map]
      have : AMember.id ∘ retrieve = id := funext fun i => hid i
      rw [this, List.map_id]
    refine hmap.nodup_iff.mpr ?_
    rw [hids]
    exact dedup_first_nodup _
  · exact List.sorted_insertionSort amLE _

/-- C2 witness: the roster theorem instantiated at the scenario role map with
the identity-faithful retrieval function. -/
theorem roster_nodup_sorted_witness :
    ((appeals_roster scGetRole (fun i => ⟨i, (i : Int)⟩) [100, 200]).map AMember.id).Nodup :=
  (roster_nodup_sorted.1 scGetRole (fun i => ⟨i, (i : Int)⟩) [100, 200] (fun _ => rfl)).1

/-- The "out of range" condition of the appeals command: the warn message
names the valid range from `low` (always 1) to `high` (the roster length). -/
structure AppealRange where
  low : Nat
  high : Nat
deriving DecidableEq

/-- Embeds the appeal lookup of `Appeals.appeals_command`
(src/cogs/appeals.py:804-838): with `appeal_id > 0` the entry
`members[appeal_id - 1]` is taken, an `IndexError` (raised explicitly for
non-positive ids, or by the indexing) is answered with the warn message
naming the range 1 to `len(members)`. -/
def appeals_lookup (members : List AMember) (appeal_id : Int) : Except AppealRange AMember :=
  if 0 < appeal_id then
    match members.get? (appeal_id - 1).toNat with
    | some m => Except.ok m
    | none => Except.error ⟨1, members.length⟩
  else Except.error ⟨1, members.length⟩

/-- C3: looking an appeal up by 1-based position fails with the out-of-range
condition reporting the range 1 to `len(roster)` exactly when the position is
below 1 or above `len(roster)`, and succeeds on every in-range position,
returning the entry at index `position - 1`. -/
theorem appeal_lookup_range (members : List AMember) (pos : Int) :
    (appeals_lookup members pos = Except.error ⟨1, members.length⟩ ↔
      pos < 1 ∨ (members.length : Int) < pos) ∧
    (1 ≤ pos → pos ≤ (members.length : Int) →
      ∃ m, appeals_lookup members pos = Except.ok m ∧
        members.get? (pos - 1).toNat = some m) := by
  unfold appeals_lookup
  by_cases hp : 0 < pos
  · rw [if_pos hp]
    cases hg : members.get? (pos - 1).toNat with
    | none =>
      have hlen : members.length ≤ (pos - 1).toNat := List.get?_eq_none.mp hg
      constructor
      · exact ⟨fun _ => Or.inr (by omega), fun _ => rfl⟩
      · intro h1 h2
        exact absurd h2 (by omega)
    | some m =>
      have hlt : (pos - 1).toNat < members.length := by
        rcases List.get?_eq_some.mp hg with ⟨h, _⟩
        exact h
      constructor
      · constructor
        · intro h
          exact Except.noConfusion h
        · intro h
          exact absurd h (by push_neg; omega)
      · intro h1 h2
        exact ⟨m, rfl, rfl⟩
  · rw [if_neg hp]
    constructor
    · exact ⟨fun _ => Or.inl (by omega), fun _ => rfl⟩
    · intro h1 _
      exact absurd h1 (by omega)

/-- C3 witness: on a roster of length 3, position 4 fails naming the range
1 to 3, and position 3 succeeds. -/
theorem appeal_lookup_range_witness :
    appeals_lookup [⟨1, 10⟩, ⟨2, 20⟩, ⟨3, 30⟩] 4 = Except.error ⟨1, 3⟩ ∧
    (∃ m, appeals_lookup [⟨1, 10⟩, ⟨2, 20⟩, ⟨3, 30⟩] 3 = Except.ok m ∧
      ([⟨1, 10⟩, ⟨2, 20⟩, ⟨3, 30⟩] : List AMember).get? ((3 : Int) - 1).toNat = some m) :=
  ⟨(appeal_lookup_range [⟨1, 10⟩, ⟨2, 20⟩, ⟨3, 30⟩] 4).1.mpr (by decide),
   (appeal_lookup_range [⟨1, 10⟩, ⟨2, 20⟩, ⟨3, 30⟩] 3).2 (by decide) (by decide)⟩


/-- Models `urllib.parse.quote_plus` at the byte level: CPython's always-safe
bytes are ASCII letters, digits, and the four marks underscore, dot, hyphen,
tilde (the default `safe=''` adds nothing). -/
def always_safe_byte (b : Nat) : Bool :=
  (65 ≤ b && b ≤ 90) || (97 ≤ b && b ≤ 122) || (48 ≤ b && b ≤ 57) ||
    b == 95 || b == 46 || b == 45 || b == 126

/-- Upper-case hexadecimal digit of a value below 16, as an ASCII byte,
mirroring CPython's `'%{:02X}'` formatting in the quoter. -/
def hex_upper_digit (n : Nat) : Nat :=
  if n < 10 then 48 + n else 55 + n

/-- Models the per-byte output of `urllib.parse.quote_plus`: a safe byte
passes through, a space becomes `'+'` (43), and every other byte becomes
`'%'` (37) followed by two upper-case hex digits. -/
def quote_plus_byte (b : Nat) : List Nat :=
  if b == 32 then [43]
  else if always_safe_byte b then [b]
  else [37, hex_upper_digit (b / 16), hex_upper_digit (b % 16)]

/-- Models `urllib.parse.quote_plus` over the UTF-8 bytes of the text, as
applied on note write in `notes_add_command` (src/cogs/appeals.py:704-707). -/
def quote_plus : List Nat → List Nat
  | [] => []
  | b :: rest => quote_plus_byte b ++ quote_plus rest

/-- The hex digits `urllib.parse.unquote` accepts: `0123456789abcdefABCDEF`. -/
def is_hex_digit_byte (b : Nat) : Bool :=
  (48 ≤ b && b ≤ 57) || (65 ≤ b && b ≤ 70) || (97 ≤ b && b ≤ 102)

/-- Numeric value of an accepted hex digit byte. -/
def hex_digit_val (b : Nat) : Nat :=
  if 48 ≤ b && b ≤ 57 then b - 48
  else if 65 ≤ b && b ≤ 70 then b - 55
  else b - 87

/-- First step of `urllib.parse.unquote_plus`: `string.replace('+', ' ')`. -/
def plus_to_space (l : List Nat) : List Nat :=
  l.map fun b => if b = 43 then 32 else b

/-- The prefix of the bytes before the first `'%'` (37): the head piece of
CPython's `string.split('%')` inside `unquote`. -/
def split_first : List Nat → List Nat
  | [] => []
  | b :: rest => if b = 37 then [] else b :: split_first rest

/-- The pieces of the bytes after each `'%'` (37) up to the next `'%'`: the
tail pieces of CPython's `string.split('%')` inside `unquote`. -/
def split_segs : List Nat → List (List Nat)
  | [] => []
  | b :: rest =>
    if b = 37 then split_first rest :: split_segs rest else split_segs rest

/-- Decoding of one piece that followed a `'%'`, as in CPython's `unquote`:
when the piece starts with two hex digits they become one byte and the rest
of the piece follows; otherwise the `'%'` is kept literally in front of the
whole piece. -/
def decode_segment (seg : List Nat) : List Nat :=
  match seg with
  | h :: l :: rest2 =>
    if is_hex_digit_byte h && is_hex_digit_byte l then
      (hex_digit_val h * 16 + hex_digit_val l) :: rest2
    else 37 :: seg
  | _ => 37 :: seg

/-- Models `urllib.parse.unquote_plus` over bytes, as applied on note read in
`notes_get_command` (src/cogs/appeals.py:637): replace `'+'` by spaces, split
on `'%'`, decode each following piece, and concatenate. -/
def unquote_plus (l : List Nat) : List Nat :=
  let l2 := plus_to_space l
  split_first l2 ++ ((split_segs l2).map decode_segment).flatten

theorem hex_upper_digit_is_hex : ∀ n, n < 16 → is_hex_digit_byte (hex_upper_digit n) = true := by
  decide

theorem hex_digit_val_hex_upper : ∀ n, n < 16 → hex_digit_val (hex_upper_digit n) = n := by
  decide

theorem always_safe_byte_ne (b : Nat) (h : always_safe_byte b = true) : b ≠ 43 ∧ b ≠ 37 := by
  simp only [always_safe_byte, Bool.or_eq_true, Bool.and_eq_true, decide_eq_true_eq,
    beq_iff_eq] at h
  omega

theorem is_hex_digit_byte_ne (b : Nat) (h : is_hex_digit_byte b = true) : b ≠ 43 ∧ b ≠ 37 := by
  simp only [is_hex_digit_byte, Bool.or_eq_true, Bool.and_eq_true, decide_eq_true_eq] at h
  omega

theorem unquote_plus_cons_plain (b : Nat) (l : List Nat) (h37 : b ≠ 37) (h43 : b ≠ 43) :
    unquote_plus (b :: l) = b :: unquote_plus l := by
  simp [unquote_plus, plus_to_space, split_first, split_segs, h37, h43]

theorem unquote_plus_cons_space (l : List Nat) :
    unquote_plus (43 :: l) = 32 :: unquote_plus l := by
  simp [unquote_plus, plus_to_space, split_first, split_segs]

theorem unquote_plus_cons_escape (hd lo : Nat) (l : List Nat)
    (hH : is_hex_digit_byte hd = true) (hL : is_hex_digit_byte lo = true) :
    unquote_plus (37 :: hd :: lo :: l) =
      (hex_digit_val hd * 16 + hex_digit_val lo) :: unquote_plus l := by
  obtain ⟨hH43, hH37⟩ := is_hex_digit_byte_ne hd hH
  obtain ⟨hL43, hL37⟩ := is_hex_digit_byte_ne lo hL
  simp [unquote_plus, plus_to_space, split_first, split_segs, decode_segment,
    hH, hL, hH43, hH37, hL43, hL37]

theorem unquote_quote_roundtrip (xs : List Nat) (h : ∀ b ∈ xs, b < 256) :
    unquote_plus (quote_plus xs) = xs := by
  induction xs with
  | nil => rfl
  | cons b bs ih =>
    have hb : b < 256 := h b (List.mem_cons_self b bs)
    have ihbs : unquote_plus (quote_plus bs) = bs :=
      ih fun x hx => h x (List.mem_cons_of_mem b hx)
    show unquote_plus (quote_plus_byte b ++ quote_plus bs) = b :: bs
    by_cases h32 : b = 32
    · subst h32
      show unquote_plus (43 :: quote_plus bs) = 32 :: bs
      rw [unquote_plus_cons_space, ihbs]
    · by_cases hsafe : always_safe_byte b = true
      · obtain ⟨h43, h37⟩ := always_safe_byte_ne b hsafe
        have hpiece : quote_plus_byte b = [b] := by
          simp [quote_plus_byte, h32, hsafe]
        rw [hpiece]
        show unquote_plus (b :: quote_plus bs) = b :: bs
        rw [unquote_plus_cons_plain b _ h37 h43, ihbs]
      · have hhi : b / 16 < 16 := by omega
        have hlo : b % 16 < 16 := by omega
        have hpiece : quote_plus_byte b = [37, hex_upper_digit (b / 16),
            hex_upper_digit (b % 16)] := by
          simp [quote_plus_byte, h32, hsafe]
        rw [hpiece]
        show unquote_plus (37 :: hex_upper_digit (b / 16) ::
          hex_upper_digit (b % 16) :: quote_plus bs) = b :: bs
        rw [unquote_plus_cons_escape _ _ _ (hex_upper_digit_is_hex _ hhi)
          (hex_upper_digit_is_hex _ hlo), ihbs,
          hex_digit_val_hex_upper _ hhi, hex_digit_val_hex_upper _ hlo]
        congr 1
        omega

/-- C4: the note-text codec round-trips: decoding (`unquote_plus`, applied on
note read) the encoding (`quote_plus`, applied on note write) of any text
returns the text unchanged, for every byte sequence, the empty one included. -/
theorem note_codec_roundtrip :
    (∀ xs : List Nat, (∀ b ∈ xs, b < 256) → unquote_plus (quote_plus xs) = xs) ∧
    unquote_plus (quote_plus []) = [] :=
  ⟨unquote_quote_roundtrip, rfl⟩

/-- C4 witness: the round trip evaluated on the bytes of `"a b+c%7 /?=&"`,
which contains a space, URL-reserved characters, a percent sign, and safe
characters. -/
theorem note_codec_roundtrip_witness :
    unquote_plus (quote_plus [97, 32, 98, 43, 99, 37, 55, 32, 47, 63, 61, 38]) =
      [97, 32, 98, 43, 99, 37, 55, 32, 47, 63, 61, 38] :=
  note_codec_roundtrip.1 [97, 32, 98, 43, 99, 37, 55, 32, 47, 63, 61, 38] (by decide)

/-- Embeds the stored note text of `notes_add_command`
(src/cogs/appeals.py:703-707): the INSERT writes
`urllib.parse.quote_plus(text)` into the `text` column. -/
def notes_add_stored_text (text : List Nat) : List Nat := quote_plus text

/-- Embeds the stored note text of `notes_rename_command`
(src/cogs/appeals.py:666-671): the UPDATE writes the `new_name` parameter
itself into the `text` column, with no encoding applied (`quote_plus` is
applied only to the old text in the WHERE clause). -/
def notes_rename_stored_text (new_name : List Nat) : List Nat := new_name

/-- Embeds the note text displayed by `notes_get_command`
(src/cogs/appeals.py:637): `urllib.parse.unquote_plus(note['text'])`. -/
def notes_get_display_text (stored : List Nat) : List Nat := unquote_plus stored

/-- C5 at the failing input: for the rename text `"a+b"` (bytes 97, 43, 98),
the rename command stores the text unencoded — violating the claimed
invariant that every store of note text percent-encodes — so the read path
decodes it to `"a b"` (bytes 97, 32, 98), not to the stored text; the add
command on the same text does encode, and its read decodes correctly. -/
theorem notes_rename_skips_encoding :
    notes_rename_stored_text [97, 43, 98] = [97, 43, 98] ∧
    notes_rename_stored_text [97, 43, 98] ≠ quote_plus [97, 43, 98] ∧
    notes_get_display_text (notes_rename_stored_text [97, 43, 98]) = [97, 32, 98] ∧
    notes_get_display_text (notes_add_stored_text [97, 43, 98]) = [97, 43, 98] := by
  refine ⟨rfl, by decide, by decide, by decide⟩

/-- Success of an external call modelled as `Except`. -/
def except_ok {ε α : Type} : Except ε α → Bool
  | Except.ok _ => true
  | Except.error _ => false

/-- Embeds the loop of `Appeals.banall_command` (src/cogs/appeals.py:564-577):
`for user in users: await ctx.guild.ban(user, ...); banned.append(user)` with
no exception handling around the call — a raised exception propagates and
aborts the loop — followed by a message reporting `len(banned)` when the loop
completes. -/
def banall_run {α ε : Type} (ban : α → Except ε Unit) : List α → Except ε Nat
  | [] => Except.ok 0
  | u :: us =>
    match ban u with
    | Except.ok _ =>
      match banall_run ban us with
      | Except.ok n => Except.ok (n + 1)
      | Except.error e => Except.error e
    | Except.error e => Except.error e

/-- Embeds the loop of `Appeals.unbanall_command` (src/cogs/appeals.py:538-551),
identical in shape to the ban loop: no per-item exception handling. -/
def unbanall_run {α ε : Type} (unban : α → Except ε Unit) : List α → Except ε Nat
  | [] => Except.ok 0
  | u :: us =>
    match unban u with
    | Except.ok _ =>
      match unbanall_run unban us with
      | Except.ok n => Except.ok (n + 1)
      | Except.error e => Except.error e
    | Except.error e => Except.error e

/-- Embeds the loop of `Appeals.kickall_command` (src/cogs/appeals.py:590-605),
identical in shape to the ban loop: no per-item exception handling. -/
def kickall_run {α ε : Type} (kick : α → Except ε Unit) : List α → Except ε Nat
  | [] => Except.ok 0
  | u :: us =>
    match kick u with
    | Except.ok _ =>
      match kickall_run kick us with
      | Except.ok n => Except.ok (n + 1)
      | Except.error e => Except.error e
    | Except.error e => Except.error e

theorem unbanall_run_eq_banall_run {α ε : Type} (f : α → Except ε Unit) (l : List α) :
    unbanall_run f l = banall_run f l := by
  induction l with
  | nil => rfl
  | cons u us ih => simp only [unbanall_run, banall_run, ih]

theorem kickall_run_eq_banall_run {α ε : Type} (f : α → Except ε Unit) (l : List α) :
    kickall_run f l = banall_run f l := by
  induction l with
  | nil => rfl
  | cons u us ih => simp only [kickall_run, banall_run, ih]

theorem banall_run_all_ok {α ε : Type} (ban : α → Except ε Unit) (users : List α)
    (h : ∀ u ∈ users, ban u = Except.ok ()) :
    banall_run ban users = Except.ok users.length := by
  induction users with
  | nil => rfl
  | cons u us ih =>
    have hu : ban u = Except.ok () := h u (List.mem_cons_self u us)
    have hus := ih fun x hx => h x (List.mem_cons_of_mem u hx)
    simp [banall_run, hu, hus]

theorem banall_run_aborts {α ε : Type} (ban : α → Except ε Unit) (pre : List α) (u : α)
    (post : List α) (e : ε) (hpre : ∀ x ∈ pre, ban x = Except.ok ())
    (hu : ban u = Except.error e) :
    banall_run ban (pre ++ u :: post) = Except.error e := by
  induction pre with
  | nil => simp [banall_run, hu]
  | cons p ps ih =>
    have hp : ban p = Except.ok () := hpre p (List.mem_cons_self p ps)
    have hps := ih fun x hx => hpre x (List.mem_cons_of_mem p hx)
    simp [banall_run, hp, hps]

/-- The ban map of the C6 counterexample: the call fails on target 1 and
succeeds on every other target. -/
def banFailOn1 : Nat → Except Unit Unit := fun u =>
  if u = 1 then Except.error () else Except.ok ()

/-- C6 counterexample: with targets [1, 2] and the external call failing on
target 1 only, the bulk-ban loop does not continue past the failure and
report the final success count 1 — it aborts with the error, so no count is
reported at all. -/
theorem bulk_ops_counterexample :
    banall_run banFailOn1 [1, 2] = Except.error () ∧
    banall_run banFailOn1 [1, 2] ≠ Except.ok 1 := by
  constructor
  · rfl
  · intro hcontra
    exact Except.noConfusion hcontra

/-- C6 amended: the bulk-ban, bulk-kick, and bulk-unban loops iterate the
targets sequentially and report the success count only when every external
call succeeds; a per-target failure is not caught — it aborts the loop at
that target, and no count is reported. -/
theorem bulk_ops_abort_on_failure :
    (∀ (ban : Nat → Except Unit Unit) (users : List Nat),
        (∀ u ∈ users, ban u = Except.ok ()) →
        banall_run ban users = Except.ok users.length ∧
        unbanall_run ban users = Except.ok users.length ∧
        kickall_run ban users = Except.ok users.length) ∧
    (∀ (ban : Nat → Except Unit Unit) (pre : List Nat) (u : Nat) (post : List Nat),
        (∀ x ∈ pre, ban x = Except.ok ()) → ban u = Except.error () →
        banall_run ban (pre ++ u :: post) = Except.error () ∧
        unbanall_run ban (pre ++ u :: post) = Except.error () ∧
        kickall_run ban (pre ++ u :: post) = Except.error ()) := by
  constructor
  · intro ban users h
    refine ⟨banall_run_all_ok ban users h, ?_, ?_⟩
    · rw [unbanall_run_eq_banall_run]
      exact banall_run_all_ok ban users h
    · rw [kickall_run_eq_banall_run]
      exact banall_run_all_ok ban users h
  · intro ban pre u post hpre hu
    refine ⟨banall_run_aborts ban pre u post () hpre hu, ?_, ?_⟩
    · rw [unbanall_run_eq_banall_run]
      exact banall_run_aborts ban pre u post () hpre hu
    · rw [kickall_run_eq_banall_run]
      exact banall_run_aborts ban pre u post () hpre hu

/-- C6 witness: the amended statement applied with an all-successful call on
[5, 6] and with the failing call `banFailOn1` after the successful prefix
[2]. -/
theorem bulk_ops_abort_on_failure_witness :
    @banall_run Nat Unit (fun _ => Except.ok ()) [5, 6] = Except.ok 2 ∧
    banall_run banFailOn1 ([2] ++ 1 :: [3]) = Except.error () :=
  ⟨(bulk_ops_abort_on_failure.1 (fun _ => Except.ok ()) [5, 6] (fun _ _ => rfl)).1,
   (bulk_ops_abort_on_failure.2 banFailOn1 [2] 1 [3]
      (fun x hx => by
        simp only [List.mem_singleton] at hx
        subst hx
        rfl)
      rfl).1⟩

/-- Modelled from the spec: the parametric stale predicate the spec describes
("callers must specify which threshold policy is active; this is a
configuration value"), with the age threshold in days as an argument. The
source's `_is_stale_invite` takes no such argument. -/
def is_stale_invite_with_threshold (days : Int) (now : Int) (inv : Invite) : Bool :=
  inv.uses == 0 && inv.max_uses == 1 && decide (days ≤ (now - inv.created_at).fdiv 86400)

/-- C7 counterexample: an unused single-use invite aged three days is selected
by the 1-day policy yet rejected by the code's predicate — there is no
threshold argument a caller could pass to obtain the 1-day behaviour. -/
theorem stale_threshold_counterexample :
    is_stale_invite (3 * 86400) ⟨0, 1, 0⟩ = false ∧
    is_stale_invite_with_threshold 1 (3 * 86400) ⟨0, 1, 0⟩ = true := by
  decide

/-- C7 amended: the age threshold is hardcoded to 7 days inside
`_is_stale_invite`; the predicate takes no threshold argument and coincides
everywhere with the fixed 7-day policy, which differs from the 1-day policy
on an invite aged three days. -/
theorem stale_threshold_hardcoded :
    (∀ (now : Int) (inv : Invite),
        is_stale_invite now inv = is_stale_invite_with_threshold 7 now inv) ∧
    is_stale_invite_with_threshold 7 (3 * 86400) ⟨0, 1, 0⟩ = false :=
  ⟨fun _ _ => rfl, by decide⟩

/-- Embeds the loop of `Appeals.invites_purge_purge_command`
(src/cogs/appeals.py:438-447): for each stale invite, `invite.delete()` is
attempted, `discord.HTTPException` is caught per item and skipped, and
`revoked` counts the successes. The first component is the reported count;
the second records every invite on which the deletion was invoked, in
order. -/
def invites_purge_run (del : Invite → Except Unit Unit) : List Invite → Nat × List Invite
  | [] => (0, [])
  | i :: is =>
    let r := invites_purge_run del is
    match del i with
    | Except.ok _ => (r.1 + 1, i :: r.2)
    | Except.error _ => (r.1, i :: r.2)

/-- C8: the purge calls the external deletion once per invite in order,
continues past per-item transport failures, and reports the number of
successful deletions. -/
theorem invites_purge_correct :
    ∀ (del : Invite → Except Unit Unit) (invites : List Invite),
      (invites_purge_run del invites).2 = invites ∧
      (invites_purge_run del invites).1 =
        (invites.filter fun i => except_ok (del i)).length := by
  intro del invites
  induction invites with
  | nil => exact ⟨rfl, rfl⟩
  | cons i is ih =>
    obtain ⟨ih1, ih2⟩ := ih
    cases hd : del i with
    | ok v =>
      cases v
      constructor
      · simp [invites_purge_run, hd, ih1]
      · simp [invites_purge_run, List.filter_cons, hd, except_ok, ih2]
    | error e =>
      cases e
      constructor
      · simp [invites_purge_run, hd, ih1]
      · simp [invites_purge_run, List.filter_cons, hd, except_ok, ih2]

/-- Strict comparison on invite creation timestamps. -/
def invLT (a b : Invite) : Prop := a.created_at < b.created_at

instance : IsAntisymm Invite invLT :=
  ⟨fun _ _ h1 h2 => absurd h2 (Int.not_lt.mpr (Int.le_of_lt h1))⟩

/-- C9 counterexample: the predicate inside the selection reads the wall
clock (`datetime.datetime.utcnow()`), so two invocations on the same invite
list — the only input the claim names besides the (non-existent) threshold
argument — return different outputs when the clock has advanced: an unused
single-use invite is not selected at age three days and is selected at age
ten days. -/
theorem stale_selection_clock_counterexample :
    fetch_stale_one_time_invites (3 * 86400) [⟨0, 1, 0⟩] ≠
      fetch_stale_one_time_invites (10 * 86400) [⟨0, 1, 0⟩] := by
  decide

/-- C9 amended: the selection is a pure function of the invite list and the
wall-clock reading, and its ordering is deterministic on every
recomputation: for a fixed clock reading, the output does not depend on the
order in which the platform returned the invites, whenever the creation
timestamps are pairwise distinct. -/
theorem stale_selection_deterministic (l1 l2 : List Invite) (now : Int)
    (hperm : l1.Perm l2)
    (hdist : l1.Pairwise fun a b => a.created_at ≠ b.created_at) :
    fetch_stale_one_time_invites now l1 = fetch_stale_one_time_invites now l2 := by
  have hsymm : ∀ {a b : Invite}, a.created_at ≠ b.created_at → b.created_at ≠ a.created_at :=
    fun h => h.symm
  have hpf : (l1.filter (is_stale_invite now)).Perm (l2.filter (is_stale_invite now)) :=
    hperm.filter (is_stale_invite now)
  have hd1 : (l1.filter (is_stale_invite now)).Pairwise
      (fun a b => a.created_at ≠ b.created_at) :=
    hdist.sublist (List.filter_sublist l1)
  have hd2 : (l2.filter (is_stale_invite now)).Pairwise
      (fun a b => a.created_at ≠ b.created_at) :=
    (hdist.perm hperm hsymm).sublist (List.filter_sublist l2)
  have hs1 : List.Sorted invLE ((l1.filter (is_stale_invite now)).insertionSort invLE) :=
    List.sorted_insertionSort invLE _
  have hs2 : List.Sorted invLE ((l2.filter (is_stale_invite now)).insertionSort invLE) :=
    List.sorted_insertionSort invLE _
  have hds1 : ((l1.filter (is_stale_invite now)).insertionSort invLE).Pairwise
      (fun a b => a.created_at ≠ b.created_at) :=
    hd1.perm (List.perm_insertionSort invLE _).symm hsymm
  have hds2 : ((l2.filter (is_stale_invite now)).insertionSort invLE).Pairwise
      (fun a b => a.created_at ≠ b.created_at) :=
    hd2.perm (List.perm_insertionSort invLE _).symm hsymm
  have hlt1 : List.Sorted invLT ((l1.filter (is_stale_invite now)).insertionSort invLE) :=
    (hs1.and hds1).imp fun h => lt_of_le_of_ne h.1 h.2
  have hlt2 : List.Sorted invLT ((l2.filter (is_stale_invite now)).insertionSort invLE) :=
    (hs2.and hds2).imp fun h => lt_of_le_of_ne h.1 h.2
  have hp : ((l1.filter (is_stale_invite now)).insertionSort invLE).Perm
      ((l2.filter (is_stale_invite now)).insertionSort invLE) :=
    (List.perm_insertionSort invLE _).trans
      (hpf.trans (List.perm_insertionSort invLE _).symm)
  exact List.eq_of_perm_of_sorted hp hlt1 hlt2

/-- C9 witness: the determinism statement applied to two opposite orderings
of the same two invites with distinct creation timestamps. -/
theorem stale_selection_deterministic_witness :
    fetch_stale_one_time_invites 0 [⟨0, 1, 0⟩, ⟨0, 1, 100⟩] =
      fetch_stale_one_time_invites 0 [⟨0, 1, 100⟩, ⟨0, 1, 0⟩] :=
  stale_selection_deterministic [⟨0, 1, 0⟩, ⟨0, 1, 100⟩] [⟨0, 1, 100⟩, ⟨0, 1, 0⟩] 0
    (List.Perm.swap (⟨0, 1, 100⟩ : Invite) (⟨0, 1, 0⟩ : Invite) [])
    (by simp [List.pairwise_cons])

/-- Embeds the mode check of `Appeals.invite_command` (src/cogs/appeals.py:488):
`mode and mode.strip().lower() == "new"`. -/
def wants_new_invite (mode : Option String) : Bool :=
  match mode with
  | some s => s.trim.toLower == "new"
  | none => false

/-- Embeds `Appeals.invite_command` (src/cogs/appeals.py:480-527): without
mode "new", the stale single-use invites are fetched and the first (oldest)
one is used when any exists, otherwise a new single-use invite is created
for the configured invite channel (`_create_one_time_invite_for_invite_channel`,
modelled by `newInvite`). The second component is the `using_stale_invite`
flag; `false` means a new invite was created. -/
def invite_command_run (mode : Option String) (now : Int) (guildInvites : List Invite)
    (newInvite : Invite) : Invite × Bool :=
  if wants_new_invite mode then (newInvite, false)
  else
    match fetch_stale_one_time_invites now guildInvites with
    | [] => (newInvite, false)
    | i :: _ => (i, true)

/-- C10: invoked without mode "new", the invite command returns the oldest
stale single-use invite and creates none when a stale one exists, and
creates a new single-use invite when none exists. -/
theorem invite_command_uses_oldest_stale (mode : Option String) (now : Int)
    (invites : List Invite) (newInv : Invite)
    (hmode : wants_new_invite mode = false) :
    (invites.filter (is_stale_invite now) ≠ [] →
      (invite_command_run mode now invites newInv).2 = true ∧
      (invite_command_run mode now invites newInv).1 ∈ invites ∧
      is_stale_invite now (invite_command_run mode now invites newInv).1 = true ∧
      (∀ j ∈ invites, is_stale_invite now j = true →
        (invite_command_run mode now invites newInv).1.created_at ≤ j.created_at)) ∧
    (invites.filter (is_stale_invite now) = [] →
      invite_command_run mode now invites newInv = (newInv, false)) := by
  have hperm : (fetch_stale_one_time_invites now invites).Perm
      (invites.filter (is_stale_invite now)) :=
    List.perm_insertionSort invLE _
  have hsorted : List.Sorted invLE (fetch_stale_one_time_invites now invites) :=
    List.sorted_insertionSort invLE _
  have hrun : invite_command_run mode now invites newInv =
      match fetch_stale_one_time_invites now invites with
      | [] => (newInv, false)
      | i :: _ => (i, true) := by
    simp [invite_command_run, hmode]
  cases hfs : fetch_stale_one_time_invites now invites with
  | nil =>
    have hfilter : invites.filter (is_stale_invite now) = [] :=
      ((hfs ▸ hperm).nil_eq).symm
    constructor
    · intro hne
      exact absurd hfilter hne
    · intro _
      rw [hrun, hfs]
  | cons i rest =>
    rw [hrun, hfs]
    constructor
    · intro _
      have hi : i ∈ invites.filter (is_stale_invite now) :=
        (hfs ▸ hperm).mem_iff.mp (List.mem_cons_self i rest)
      refine ⟨rfl, (List.mem_filter.mp hi).1, (List.mem_filter.mp hi).2, ?_⟩
      intro j hj hstale
      have hjf : j ∈ invites.filter (is_stale_invite now) :=
        List.mem_filter.mpr ⟨hj, hstale⟩
      have hjs : j ∈ i :: rest := (hfs ▸ hperm).mem_iff.mpr hjf
      rcases List.mem_cons.mp hjs with hji | hjr
      · exact hji ▸ Int.le_refl _
      · exact List.rel_of_sorted_cons (hfs ▸ hsorted) j hjr
    · intro hfilter
      have : fetch_stale_one_time_invites now invites = [] := by
        unfold fetch_stale_one_time_invites
        rw [hfilter]
        rfl
      rw [hfs] at this
      exact absurd this (List.cons_ne_nil i rest)

/-- C10 witness: with one stale invite aged ten days the command uses it; with
no invites at all it creates the new invite. -/
theorem invite_command_uses_oldest_stale_witness :
    (invite_command_run none (10 * 86400) [⟨0, 1, 0⟩] ⟨0, 1, 999⟩).2 = true ∧
    invite_command_run none 0 [] ⟨0, 1, 999⟩ = (⟨0, 1, 999⟩, false) :=
  ⟨((invite_command_uses_oldest_stale none (10 * 86400) [⟨0, 1, 0⟩] ⟨0, 1, 999⟩ rfl).1
      (by decide)).1,
   (invite_command_uses_oldest_stale none 0 [] ⟨0, 1, 999⟩ rfl).2 rfl⟩
